import Mathlib

set_option maxHeartbeats 1000000
set_option maxRecDepth 4000

/-! Shallow embedding of `src/lib.rs` (a toroidal Conway's Game of Life
`Universe` over a bit-packed cell array, `fixedbitset::FixedBitSet`).

Modelling conventions:
* `u32` arithmetic wraps modulo `2^32` (release-build semantics); on the
  wasm32 target `usize` is 32 bits, so the `as usize` casts are lossless.
* `FixedBitSet` reads through `Index`/`contains` are total and yield `false`
  out of range; `set`/`toggle` assert `bit < length`; a panic is modelled as
  `Option.none`, as is `% 0` in `add_pattern` and `chunks(0)` in `Display`.
* The bit array is modelled as the list of its logical bits, row-major; the
  packed `u32` blocks are recovered by `asSlice` where the source reads them.
-/

def U32 : Nat := 4294967296

/-- Wrapping `u32` subtraction of 1 (the source's `x - 1` on a `u32`). -/
def u32sub1 (n : Nat) : Nat := (n + U32 - 1) % U32

structure Universe where
  width : Nat
  height : Nat
  cells : List Bool
deriving DecidableEq

inductive Pattern where
  | Glider
  | Pentomino
deriving DecidableEq

/-- `FixedBitSet` read (`Index` / `contains`): total, `false` out of range. -/
def bitGet (cells : List Bool) (i : Nat) : Bool := cells.getD i false

/-- `FixedBitSet::set`: asserts `i < length` (`none` models the panic). -/
def bitSet (cells : List Bool) (i : Nat) (b : Bool) : Option (List Bool) :=
  if i < cells.length then some (cells.set i b) else none

/-- `FixedBitSet::toggle`: asserts `i < length` (`none` models the panic). -/
def bitToggle (cells : List Bool) (i : Nat) : Option (List Bool) :=
  if i < cells.length then some (cells.set i (!(bitGet cells i))) else none

/-- A sequence of checked bit writes, threaded left to right. -/
def writeFold (init : List Bool) (ws : List (Nat × Bool)) : Option (List Bool) :=
  ws.foldl (fun acc p => acc.bind (fun cells => bitSet cells p.1 p.2)) (some init)

/-- `Universe::get_index`: `(row * self.width + column) as usize`, in `u32`. -/
def get_index (u : Universe) (row column : Nat) : Nat :=
  (row * u.width + column) % U32

/-- `north` in `live_neighbor_count`: `height - 1` if `row == 0` else `row - 1`. -/
def northOf (u : Universe) (row : Nat) : Nat :=
  if row = 0 then u32sub1 u.height else row - 1

/-- `south` in `live_neighbor_count`: `0` if `row == height - 1` else `row + 1`. -/
def southOf (u : Universe) (row : Nat) : Nat :=
  if row = u32sub1 u.height then 0 else (row + 1) % U32

/-- `west` in `live_neighbor_count`: `width - 1` if `column == 0` else `column - 1`. -/
def westOf (u : Universe) (column : Nat) : Nat :=
  if column = 0 then u32sub1 u.width else column - 1

/-- `east` in `live_neighbor_count`: `0` if `column == width - 1` else `column + 1`. -/
def eastOf (u : Universe) (column : Nat) : Nat :=
  if column = u32sub1 u.width then 0 else (column + 1) % U32

/-- `Universe::live_neighbor_count`: the sum (as `u8`, at most 8) of the eight
toroidal neighbors' bits, all read from `self.cells`. Term order follows the
source: `nw + ne + n + w + e + s + sw + se`. -/
def live_neighbor_count (u : Universe) (row column : Nat) : Nat :=
  (bitGet u.cells (get_index u (northOf u row) (westOf u column))).toNat
  + (bitGet u.cells (get_index u (northOf u row) (eastOf u column))).toNat
  + (bitGet u.cells (get_index u (northOf u row) column)).toNat
  + (bitGet u.cells (get_index u row (westOf u column))).toNat
  + (bitGet u.cells (get_index u row (eastOf u column))).toNat
  + (bitGet u.cells (get_index u (southOf u row) column)).toNat
  + (bitGet u.cells (get_index u (southOf u row) (westOf u column))).toNat
  + (bitGet u.cells (get_index u (southOf u row) (eastOf u column))).toNat

/-- The cell bit at `(row, column)`, read the way the source reads
`self.cells[self.get_index(row, column)]`. -/
def getCell (u : Universe) (row column : Nat) : Bool :=
  bitGet u.cells (get_index u row column)

/-- The `match (cell, live_neighbors)` arms of `Universe::tick`, in source order. -/
def nextState (cell : Bool) (liveNeighbors : Nat) : Bool :=
  if cell = true ∧ liveNeighbors < 2 then false
  else if cell = true ∧ (liveNeighbors = 2 ∨ liveNeighbors = 3) then true
  else if cell = true ∧ liveNeighbors > 3 then false
  else if cell = false ∧ liveNeighbors = 3 then true
  else cell

/-- The `(row, col)` pairs visited by tick's nested loops, in row-major order. -/
def rowMajorPairs (height width : Nat) : List (Nat × Nat) :=
  (List.range height).flatMap (fun row => (List.range width).map (fun col => (row, col)))

/-- `Universe::tick`: `next = self.cells.clone()`, then one checked write per
visited cell, each value computed from the pre-tick `self.cells`; finally
`self.cells = next`. -/
def tick (u : Universe) : Option Universe :=
  (writeFold u.cells ((rowMajorPairs u.height u.width).map (fun p =>
      (get_index u p.1 p.2,
       nextState (getCell u p.1 p.2) (live_neighbor_count u p.1 p.2))))).map
    (fun next => { u with cells := next })

/-- `Universe::new`: a 64×64 grid, cell `i` live iff `i % 2 == 0 || i % 7 == 0`
(the constructor's loop of in-range `set`s over a fresh all-dead bitset). -/
def Universe.new : Universe :=
  { width := 64, height := 64,
    cells := (List.range ((64 * 64) % U32)).map
      (fun i => decide (i % 2 = 0) || decide (i % 7 = 0)) }

/-- `Universe::set_cells`: for each `(row, col)` pair in order, a checked
`set(get_index(row, col), true)`. -/
def set_cells (u : Universe) (cs : List (Nat × Nat)) : Option Universe :=
  (writeFold u.cells (cs.map (fun p => (get_index u p.1 p.2, true)))).map
    (fun cells => { u with cells := cells })

/-- `Universe::toggle_cell`: a checked `toggle(get_index(row, col))`. -/
def toggle_cell (u : Universe) (row col : Nat) : Option Universe :=
  (bitToggle u.cells (get_index u row col)).map
    (fun cells => { u with cells := cells })

/-- The per-pattern `(delta_row, delta_col)` offsets of `Universe::add_pattern`,
with `self.width - 1` / `self.height - 1` as wrapping `u32` subtractions. -/
def patternDeltas (u : Universe) : Pattern → List (Nat × Nat)
  | Pattern.Glider =>
      [(0, u32sub1 u.width), (1, 0), (1, 1), (0, 1), (u32sub1 u.height, 1)]
  | Pattern.Pentomino =>
      [(0, u32sub1 u.width), (0, 0), (1, 0), (u32sub1 u.height, 0), (u32sub1 u.height, 1)]

/-- `Universe::add_pattern`: for each offset, a checked
`set(get_index((row + dr) % height, (col + dc) % width), true)`; the `% 0`
when a dimension is zero panics (`none`). -/
def add_pattern (u : Universe) (row col : Nat) (pattern : Pattern) : Option Universe :=
  if u.height = 0 ∨ u.width = 0 then none
  else
    (writeFold u.cells ((patternDeltas u pattern).map (fun d =>
        (get_index u (((row + d.1) % U32) % u.height) (((col + d.2) % U32) % u.width),
         true)))).map
      (fun cells => { u with cells := cells })

/-- `Universe::set_preset`: a fresh all-dead bitset of `(width * height) as
usize` bits; preset `0` then sets bit `i` iff `i % 3 == 0 || i % 8 == 0 ||
i % 7 == 0`, every other preset leaves the fresh bitset untouched. -/
def set_preset (u : Universe) (preset : Nat) : Universe :=
  { u with cells :=
      match preset with
      | 0 => (List.range ((u.width * u.height) % U32)).map
          (fun i => decide (i % 3 = 0) || decide (i % 8 = 0) || decide (i % 7 = 0))
      | _ => List.replicate ((u.width * u.height) % U32) false }

/-- `Universe::set_width`: store the new width, then a fresh all-dead bitset of
`(width * self.height) as usize` bits. -/
def set_width (u : Universe) (width : Nat) : Universe :=
  { u with width := width,
           cells := List.replicate ((width * u.height) % U32) false }

/-- `Universe::set_height`: store the new height, then a fresh all-dead bitset
of `(self.width * height) as usize` bits. -/
def set_height (u : Universe) (height : Nat) : Universe :=
  { u with height := height,
           cells := List.replicate ((u.width * height) % U32) false }

/-- `slice::chunks`, written with a fuel argument bounded by the list length
(the `chunks(0)` panic is excluded by the callers below). -/
def chunksGo {α : Type} : Nat → Nat → List α → List (List α)
  | _, _, [] => []
  | 0, _, l => [l]
  | fuel + 1, n, l => l.take n :: chunksGo fuel n (l.drop n)

/-- `slice::chunks(n)` over a list. -/
def chunks {α : Type} (n : Nat) (l : List α) : List (List α) :=
  chunksGo l.length n l

/-- Value of one packed `u32` block, bits LSB-first. -/
def wordOfBits (bits : List Bool) : Nat :=
  bits.foldr (fun b acc => b.toNat + 2 * acc) 0

/-- `FixedBitSet::as_slice`: the packed `u32` blocks, `⌈len/32⌉` of them
(padding bits above the logical length are always zero). -/
def asSlice (cells : List Bool) : List Nat :=
  (chunks 32 cells).map wordOfBits

/-- The `Display` impl behind `Universe::render`: iterates
`self.cells.as_slice().chunks(self.width as usize)` — the packed `u32`
*blocks*, `width` blocks per line — printing `'◻'` when a block is `0` and
`'◼'` otherwise, then `'\n'` after each chunk. `chunks(0)` panics (`none`). -/
def render (u : Universe) : Option String :=
  if u.width = 0 then none
  else some (String.join ((chunks u.width (asSlice u.cells)).map
    (fun line => String.mk (line.map (fun block => if block = 0 then '◻' else '◼')) ++ "\n")))

/-- The representation invariant: the bit array has exactly one bit per cell. -/
def univInv (u : Universe) : Prop := u.cells.length = u.width * u.height

/-- The spec's §4.4 snapshot semantics, as its own definition: every cell's
next value is a pure pointwise function of the *pre-tick* generation (its
state and its live-neighbor count), one map over the whole array at once. -/
def tickSpec (u : Universe) : Universe :=
  { u with cells := (List.range u.cells.length).map (fun i =>
      nextState (bitGet u.cells i) (live_neighbor_count u (i / u.width) (i % u.width))) }

/-- A `width × height` grid whose only live cell is `(0, 0)` (linear index 0). -/
def singleCellUniverse (width height : Nat) : Universe :=
  { width := width, height := height,
    cells := (List.range (width * height)).map (fun i => decide (i = 0)) }

/-- The eight neighbor coordinates exactly as the spec words them: the row
above is `height - 1` if `row == 0` else `row - 1`; the row below is `0` if
`row == height - 1` else `row + 1`; analogous wraparound for west/east columns
using `width`; listed here as (above,left), (above,col), (above,right),
(row,left), (row,right), (below,left), (below,col), (below,right). -/
def specNeighbors (width height row col : Nat) : List (Nat × Nat) :=
  [(if row = 0 then height - 1 else row - 1, if col = 0 then width - 1 else col - 1),
   (if row = 0 then height - 1 else row - 1, col),
   (if row = 0 then height - 1 else row - 1, if col = width - 1 then 0 else col + 1),
   (row, if col = 0 then width - 1 else col - 1),
   (row, if col = width - 1 then 0 else col + 1),
   (if row = height - 1 then 0 else row + 1, if col = 0 then width - 1 else col - 1),
   (if row = height - 1 then 0 else row + 1, col),
   (if row = height - 1 then 0 else row + 1, if col = width - 1 then 0 else col + 1)]

/-- A 2×2 all-dead universe, used as a concrete test input. -/
def deadTwo : Universe := ⟨2, 2, [false, false, false, false]⟩

/-- A 2×2 universe whose only live cell is `(0, 0)` (linear index 0). -/
def oneAliveTwo : Universe := ⟨2, 2, [true, false, false, false]⟩

theorem u32sub1_eq {n : Nat} (h1 : 1 ≤ n) (h2 : n ≤ U32) : u32sub1 n = n - 1 := by
  simp only [u32sub1, U32] at *
  omega

theorem getD_set_ne (l : List Bool) {i j : Nat} (b d : Bool) (h : i ≠ j) :
    (l.set i b).getD j d = l.getD j d := by
  rw [List.getD_eq_getElem?_getD, List.getElem?_set, if_neg h, List.getD_eq_getElem?_getD]

theorem getD_set_self (l : List Bool) {i : Nat} (b d : Bool) (h : i < l.length) :
    (l.set i b).getD i d = b := by
  rw [List.getD_eq_getElem?_getD, List.getElem?_set, if_pos rfl, if_pos h]
  rfl

theorem getD_range_map {α : Type} (f : Nat → α) {n i : Nat} (d : α) (h : i < n) :
    ((List.range n).map f).getD i d = f i := by
  rw [List.getD_eq_getElem?_getD, List.getElem?_map, List.getElem?_range h]
  rfl

theorem writeFold_from_none (ws : List (Nat × Bool)) :
    ws.foldl (fun acc p => acc.bind (fun cells => bitSet cells p.1 p.2)) none = none := by
  induction ws with
  | nil => rfl
  | cons p ws ih => rw [List.foldl_cons]; exact ih

theorem writeFold_cons (init : List Bool) (p : Nat × Bool) (ws : List (Nat × Bool)) :
    writeFold init (p :: ws) =
      match bitSet init p.1 p.2 with
      | some cs => writeFold cs ws
      | none => none := by
  show ws.foldl _ (bitSet init p.1 p.2) = _
  cases h : bitSet init p.1 p.2 with
  | none => exact writeFold_from_none ws
  | some cs => rfl

theorem bitSet_eq_some {init cs : List Bool} {i : Nat} {b : Bool}
    (h : bitSet init i b = some cs) : i < init.length ∧ cs = init.set i b := by
  rw [bitSet] at h
  split at h
  · exact ⟨by assumption, (Option.some.inj h).symm⟩
  · exact absurd h (by simp)

theorem writeFold_length : ∀ (ws : List (Nat × Bool)) (init out : List Bool),
    writeFold init ws = some out → out.length = init.length := by
  intro ws
  induction ws with
  | nil =>
    intro init out h
    rw [← Option.some.inj (show some init = some out from h)]
  | cons p ws ih =>
    intro init out h
    rw [writeFold_cons] at h
    cases hb : bitSet init p.1 p.2 with
    | none => rw [hb] at h; exact absurd h (by simp)
    | some cs =>
      rw [hb] at h
      obtain ⟨hlt, hcs⟩ := bitSet_eq_some hb
      rw [ih cs out h, hcs, List.length_set]

theorem writeFold_isSome : ∀ (ws : List (Nat × Bool)) (init : List Bool),
    (∀ p ∈ ws, p.1 < init.length) → ∃ out, writeFold init ws = some out := by
  intro ws
  induction ws with
  | nil => intro init _; exact ⟨init, rfl⟩
  | cons p ws ih =>
    intro init hlt
    rw [writeFold_cons]
    have hp : p.1 < init.length := hlt p (List.mem_cons_self p ws)
    have hb : bitSet init p.1 p.2 = some (init.set p.1 p.2) := by rw [bitSet, if_pos hp]
    rw [hb]
    exact ih (init.set p.1 p.2) (fun q hq => by
      rw [List.length_set]; exact hlt q (List.mem_cons_of_mem p hq))

theorem writeFold_getD_not_mem : ∀ (ws : List (Nat × Bool)) (init out : List Bool) (i : Nat),
    writeFold init ws = some out → (∀ p ∈ ws, p.1 ≠ i) →
    out.getD i false = init.getD i false := by
  intro ws
  induction ws with
  | nil =>
    intro init out i h _
    rw [← Option.some.inj (show some init = some out from h)]
  | cons p ws ih =>
    intro init out i h hne
    rw [writeFold_cons] at h
    cases hb : bitSet init p.1 p.2 with
    | none => rw [hb] at h; exact absurd h (by simp)
    | some cs =>
      rw [hb] at h
      obtain ⟨hlt, hcs⟩ := bitSet_eq_some hb
      rw [ih cs out i h (fun q hq => hne q (List.mem_cons_of_mem p hq)), hcs,
        getD_set_ne init _ _ (hne p (List.mem_cons_self p ws))]

theorem writeFold_getD_mem : ∀ (ws : List (Nat × Bool)) (init out : List Bool),
    (ws.map Prod.fst).Nodup → writeFold init ws = some out →
    ∀ p ∈ ws, out.getD p.1 false = p.2 := by
  intro ws
  induction ws with
  | nil => intro init out _ _ p hp; exact absurd hp (List.not_mem_nil p)
  | cons q ws ih =>
    intro init out hnd h p hp
    rw [List.map_cons, List.nodup_cons] at hnd
    rw [writeFold_cons] at h
    cases hb : bitSet init q.1 q.2 with
    | none => rw [hb] at h; exact absurd h (by simp)
    | some cs =>
      rw [hb] at h
      obtain ⟨hlt, hcs⟩ := bitSet_eq_some hb
      rcases List.mem_cons.mp hp with rfl | hmem
      · have hne : ∀ r ∈ ws, r.1 ≠ p.1 := by
          intro r hr hcontra
          exact hnd.1 (hcontra ▸ List.mem_map_of_mem Prod.fst hr)
        rw [writeFold_getD_not_mem ws cs out p.1 h hne, hcs,
          getD_set_self init _ _ hlt]
      · exact ih cs out hnd.2 h p hmem

theorem mem_rowMajorPairs {height width : Nat} {p : Nat × Nat} :
    p ∈ rowMajorPairs height width ↔ p.1 < height ∧ p.2 < width := by
  cases p with
  | mk r c =>
    simp only [rowMajorPairs, List.mem_flatMap, List.mem_map, List.mem_range, Prod.mk.injEq]
    constructor
    · rintro ⟨a, ha, b, hb, rfl, rfl⟩
      exact ⟨ha, hb⟩
    · rintro ⟨hr, hc⟩
      exact ⟨r, hr, c, hc, rfl, rfl⟩

theorem range_flatMap_linear (height width : Nat) :
    (List.range height).flatMap
      (fun row => (List.range width).map (fun col => row * width + col)) =
    List.range (height * width) := by
  induction height with
  | zero => simp
  | succ h ih =>
    rw [List.range_succ, List.flatMap_append, ih, Nat.succ_mul, List.range_add]
    simp

theorem rowMajorPairs_indices (height width : Nat) :
    (rowMajorPairs height width).map (fun p => p.1 * width + p.2) =
    List.range (height * width) := by
  rw [rowMajorPairs, List.map_flatMap]
  simp only [List.map_map, Function.comp_def]
  exact range_flatMap_linear height width

theorem index_lt {u : Universe} {r c : Nat} (hr : r < u.height) (hc : c < u.width) :
    r * u.width + c < u.width * u.height := by
  calc r * u.width + c < (r + 1) * u.width := by rw [Nat.succ_mul]; omega
  _ ≤ u.height * u.width := Nat.mul_le_mul_right u.width hr
  _ = u.width * u.height := Nat.mul_comm u.height u.width

theorem get_index_eq {u : Universe} (hb : u.width * u.height < U32) {r c : Nat}
    (hr : r < u.height) (hc : c < u.width) :
    get_index u r c = r * u.width + c :=
  Nat.mod_eq_of_lt (lt_trans (index_lt hr hc) hb)

theorem northOf_eq {u : Universe} (hH : 0 < u.height) (hU : u.height ≤ U32) (r : Nat) :
    northOf u r = if r = 0 then u.height - 1 else r - 1 := by
  rw [northOf, u32sub1_eq hH hU]

theorem southOf_eq {u : Universe} (hH : 0 < u.height) (hU : u.height < U32) {r : Nat}
    (hr : r < u.height) :
    southOf u r = if r = u.height - 1 then 0 else r + 1 := by
  rw [southOf, u32sub1_eq hH (le_of_lt hU), Nat.mod_eq_of_lt (by omega : r + 1 < U32)]

theorem westOf_eq {u : Universe} (hW : 0 < u.width) (hU : u.width ≤ U32) (c : Nat) :
    westOf u c = if c = 0 then u.width - 1 else c - 1 := by
  rw [westOf, u32sub1_eq hW hU]

theorem eastOf_eq {u : Universe} (hW : 0 < u.width) (hU : u.width < U32) {c : Nat}
    (hc : c < u.width) :
    eastOf u c = if c = u.width - 1 then 0 else c + 1 := by
  rw [eastOf, u32sub1_eq hW (le_of_lt hU), Nat.mod_eq_of_lt (by omega : c + 1 < U32)]

theorem northOf_lt {u : Universe} (hH : 0 < u.height) (hU : u.height ≤ U32) {r : Nat}
    (hr : r < u.height) : northOf u r < u.height := by
  rw [northOf_eq hH hU]
  split <;> omega

theorem southOf_lt {u : Universe} (hH : 0 < u.height) (hU : u.height < U32) {r : Nat}
    (hr : r < u.height) : southOf u r < u.height := by
  rw [southOf_eq hH hU hr]
  split <;> omega

theorem westOf_lt {u : Universe} (hW : 0 < u.width) (hU : u.width ≤ U32) {c : Nat}
    (hc : c < u.width) : westOf u c < u.width := by
  rw [westOf_eq hW hU]
  split <;> omega

theorem eastOf_lt {u : Universe} (hW : 0 < u.width) (hU : u.width < U32) {c : Nat}
    (hc : c < u.width) : eastOf u c < u.width := by
  rw [eastOf_eq hW hU hc]
  split <;> omega

theorem tick_eq_tickSpec (u : Universe) (hinv : univInv u) (hb : u.width * u.height < U32) :
    tick u = some (tickSpec u) := by
  have hfst : ((rowMajorPairs u.height u.width).map (fun p =>
      (get_index u p.1 p.2,
       nextState (getCell u p.1 p.2) (live_neighbor_count u p.1 p.2)))).map Prod.fst =
      List.range (u.height * u.width) := by
    rw [List.map_map]
    have hcongr : ∀ p ∈ rowMajorPairs u.height u.width,
        (Prod.fst ∘ fun p => (get_index u p.1 p.2,
          nextState (getCell u p.1 p.2) (live_neighbor_count u p.1 p.2))) p =
        p.1 * u.width + p.2 := by
      intro p hp
      obtain ⟨hr, hc⟩ := mem_rowMajorPairs.mp hp
      exact get_index_eq hb hr hc
    rw [List.map_congr_left hcongr, rowMajorPairs_indices]
  have hltall : ∀ q ∈ (rowMajorPairs u.height u.width).map (fun p =>
      (get_index u p.1 p.2,
       nextState (getCell u p.1 p.2) (live_neighbor_count u p.1 p.2))),
      q.1 < u.cells.length := by
    intro q hq
    have hmem := List.mem_map_of_mem Prod.fst hq
    rw [hfst, List.mem_range] at hmem
    rw [hinv, Nat.mul_comm]
    exact hmem
  obtain ⟨out, hout⟩ := writeFold_isSome _ u.cells hltall
  have houtlen := writeFold_length _ _ _ hout
  have hnd : (((rowMajorPairs u.height u.width).map (fun p =>
      (get_index u p.1 p.2,
       nextState (getCell u p.1 p.2) (live_neighbor_count u p.1 p.2)))).map Prod.fst).Nodup := by
    rw [hfst]
    exact List.nodup_range _
  have hcells : out = (tickSpec u).cells := by
    have hlen2 : (tickSpec u).cells.length = u.cells.length := by
      simp [tickSpec]
    apply List.ext_getElem (by rw [houtlen, hlen2])
    intro i h1 h2
    have hilen : i < u.cells.length := by rw [← houtlen]; exact h1
    have hiWH : i < u.width * u.height := by rw [← hinv]; exact hilen
    have hW : 0 < u.width := by
      rcases Nat.eq_zero_or_pos u.width with h | h
      · rw [h, Nat.zero_mul] at hiWH
        exact absurd hiWH (Nat.not_lt_zero i)
      · exact h
    have hrH : i / u.width < u.height :=
      (Nat.div_lt_iff_lt_mul hW).mpr (by rw [Nat.mul_comm u.height u.width]; exact hiWH)
    have hcW : i % u.width < u.width := Nat.mod_lt i hW
    have hmem : (i / u.width, i % u.width) ∈ rowMajorPairs u.height u.width :=
      mem_rowMajorPairs.mpr ⟨hrH, hcW⟩
    have hq : (get_index u (i / u.width) (i % u.width),
        nextState (getCell u (i / u.width) (i % u.width))
          (live_neighbor_count u (i / u.width) (i % u.width))) ∈
        (rowMajorPairs u.height u.width).map (fun p =>
          (get_index u p.1 p.2,
           nextState (getCell u p.1 p.2) (live_neighbor_count u p.1 p.2))) :=
      List.mem_map_of_mem _ hmem
    have hval := writeFold_getD_mem _ u.cells out hnd hout _ hq
    have hio : get_index u (i / u.width) (i % u.width) = i := by
      rw [get_index_eq hb hrH hcW]
      calc i / u.width * u.width + i % u.width
          = u.width * (i / u.width) + i % u.width := by rw [Nat.mul_comm]
      _ = i := Nat.div_add_mod i u.width
    simp only [getCell] at hval
    rw [hio] at hval
    have hrhs : (tickSpec u).cells.getD i false =
        nextState (bitGet u.cells i) (live_neighbor_count u (i / u.width) (i % u.width)) :=
      getD_range_map _ _ hilen
    rw [← List.getD_eq_getElem out false h1, ← List.getD_eq_getElem _ false h2, hrhs]
    exact hval
  rw [hcells] at hout
  unfold tick
  rw [hout, Option.map_some']
  rfl

theorem tickSpec_getCell (u : Universe) (hinv : univInv u) (hb : u.width * u.height < U32)
    {r c : Nat} (hr : r < u.height) (hc : c < u.width) :
    getCell (tickSpec u) r c = nextState (getCell u r c) (live_neighbor_count u r c) := by
  have hW : 0 < u.width := Nat.lt_of_le_of_lt (Nat.zero_le c) hc
  have hidx : get_index u r c = r * u.width + c := get_index_eq hb hr hc
  have hidx2 : get_index (tickSpec u) r c = r * u.width + c := hidx
  have hlt : r * u.width + c < u.cells.length := by rw [hinv]; exact index_lt hr hc
  have hdiv : (r * u.width + c) / u.width = r := by
    rw [show r * u.width + c = c + u.width * r from by ring, Nat.add_mul_div_left c r hW,
      Nat.div_eq_of_lt hc, Nat.zero_add]
  have hmod : (r * u.width + c) % u.width = c := by
    rw [show r * u.width + c = c + u.width * r from by ring, Nat.add_mul_mod_self_left,
      Nat.mod_eq_of_lt hc]
  show (tickSpec u).cells.getD (get_index (tickSpec u) r c) false = _
  rw [hidx2]
  rw [show (tickSpec u).cells = (List.range u.cells.length).map (fun i =>
      nextState (bitGet u.cells i) (live_neighbor_count u (i / u.width) (i % u.width)))
    from rfl]
  rw [getD_range_map _ _ hlt, hdiv, hmod, ← hidx]
  rfl

theorem live_neighbor_count_le_eight (u : Universe) (r c : Nat) :
    live_neighbor_count u r c ≤ 8 := by
  unfold live_neighbor_count
  have h1 := Bool.toNat_le (bitGet u.cells (get_index u (northOf u r) (westOf u c)))
  have h2 := Bool.toNat_le (bitGet u.cells (get_index u (northOf u r) (eastOf u c)))
  have h3 := Bool.toNat_le (bitGet u.cells (get_index u (northOf u r) c))
  have h4 := Bool.toNat_le (bitGet u.cells (get_index u r (westOf u c)))
  have h5 := Bool.toNat_le (bitGet u.cells (get_index u r (eastOf u c)))
  have h6 := Bool.toNat_le (bitGet u.cells (get_index u (southOf u r) c))
  have h7 := Bool.toNat_le (bitGet u.cells (get_index u (southOf u r) (westOf u c)))
  have h8 := Bool.toNat_le (bitGet u.cells (get_index u (southOf u r) (eastOf u c)))
  omega

theorem nextState_true_lt2 {n : Nat} (h : n < 2) : nextState true n = false := by
  unfold nextState
  rw [if_pos ⟨rfl, h⟩]

theorem nextState_true_two_or_three {n : Nat} (h : n = 2 ∨ n = 3) : nextState true n = true := by
  unfold nextState
  rw [if_neg (by rintro ⟨-, hlt⟩; omega), if_pos ⟨rfl, h⟩]

theorem nextState_true_gt3 {n : Nat} (h : 3 < n) : nextState true n = false := by
  unfold nextState
  rw [if_neg (by rintro ⟨-, hlt⟩; omega), if_neg (by rintro ⟨-, h23⟩; omega),
    if_pos ⟨rfl, h⟩]

theorem nextState_false_three : nextState false 3 = true := by
  unfold nextState
  rw [if_neg (by rintro ⟨hcon, -⟩; exact absurd hcon (by decide)),
    if_neg (by rintro ⟨hcon, -⟩; exact absurd hcon (by decide)),
    if_neg (by rintro ⟨hcon, -⟩; exact absurd hcon (by decide)),
    if_pos ⟨rfl, rfl⟩]

theorem nextState_false_ne_three {n : Nat} (h : n ≠ 3) : nextState false n = false := by
  unfold nextState
  rw [if_neg (by rintro ⟨hcon, -⟩; exact absurd hcon (by decide)),
    if_neg (by rintro ⟨hcon, -⟩; exact absurd hcon (by decide)),
    if_neg (by rintro ⟨hcon, -⟩; exact absurd hcon (by decide)),
    if_neg (by rintro ⟨-, h3⟩; exact h h3)]

/-- C1: for every in-range cell, `tick` sets the next state exactly by the
fixed birth/survival table applied to the pre-tick state and the pre-tick
live-neighbor count (which lies in `[0, 8]`): Alive with fewer than 2 live
neighbors dies, Alive with 2 or 3 survives, Alive with more than 3 dies, Dead
with exactly 3 becomes Alive, and any other combination is unchanged. -/
theorem claim1_rule_table (u u' : Universe) (hinv : univInv u)
    (hb : u.width * u.height < U32) (r c : Nat) (hr : r < u.height) (hc : c < u.width)
    (htick : tick u = some u') :
    live_neighbor_count u r c ≤ 8 ∧
    (getCell u r c = true → live_neighbor_count u r c < 2 → getCell u' r c = false) ∧
    (getCell u r c = true →
      (live_neighbor_count u r c = 2 ∨ live_neighbor_count u r c = 3) →
      getCell u' r c = true) ∧
    (getCell u r c = true → 3 < live_neighbor_count u r c → getCell u' r c = false) ∧
    (getCell u r c = false → live_neighbor_count u r c = 3 → getCell u' r c = true) ∧
    (getCell u r c = false → live_neighbor_count u r c ≠ 3 →
      getCell u' r c = getCell u r c) := by
  rw [tick_eq_tickSpec u hinv hb, Option.some.injEq] at htick
  subst htick
  have hcell := tickSpec_getCell u hinv hb hr hc
  refine ⟨live_neighbor_count_le_eight u r c, ?_, ?_, ?_, ?_, ?_⟩
  · intro h1 h2
    rw [hcell, h1, nextState_true_lt2 h2]
  · intro h1 h2
    rw [hcell, h1, nextState_true_two_or_three h2]
  · intro h1 h2
    rw [hcell, h1, nextState_true_gt3 h2]
  · intro h1 h2
    rw [hcell, h1, h2, nextState_false_three]
  · intro h1 h2
    rw [hcell, h1, nextState_false_ne_three h2]

theorem claim1_rule_table_witness : live_neighbor_count deadTwo 0 0 ≤ 8 :=
  (claim1_rule_table deadTwo deadTwo rfl (by decide) 0 0 (by decide) (by decide)
    (by decide)).1

/-- C2: `tick` is a single atomic replacement of the whole grid computed from
a snapshot: it succeeds and returns exactly the grid obtained by one pointwise
map over the pre-tick generation (`tickSpec`), so every cell's live-neighbor
count is taken from the full pre-tick generation and no cell's update observes
another cell's already-updated value. -/
theorem claim2_tick_snapshot (u : Universe) (hinv : univInv u)
    (hb : u.width * u.height < U32) :
    tick u = some (tickSpec u) ∧
    ∀ u', tick u = some u' → ∀ r < u.height, ∀ c < u.width,
      getCell u' r c = nextState (getCell u r c) (live_neighbor_count u r c) := by
  refine ⟨tick_eq_tickSpec u hinv hb, ?_⟩
  intro u' h r hr c hc
  rw [tick_eq_tickSpec u hinv hb, Option.some.injEq] at h
  rw [← h]
  exact tickSpec_getCell u hinv hb hr hc

theorem claim2_tick_snapshot_witness : tick oneAliveTwo = some (tickSpec oneAliveTwo) :=
  (claim2_tick_snapshot oneAliveTwo rfl (by decide)).1

theorem bitToggle_eq_some {cells out : List Bool} {i : Nat}
    (h : bitToggle cells i = some out) :
    i < cells.length ∧ out = cells.set i (!(bitGet cells i)) := by
  rw [bitToggle] at h
  split at h
  · exact ⟨by assumption, (Option.some.inj h).symm⟩
  · exact absurd h (by simp)

theorem rowMajorPairs_nil {height width : Nat} (h : height = 0 ∨ width = 0) :
    rowMajorPairs height width = [] := by
  apply List.eq_nil_iff_forall_not_mem.mpr
  intro p hp
  obtain ⟨h1, h2⟩ := mem_rowMajorPairs.mp hp
  rcases h with h | h <;> omega

/-- C8: when either dimension is zero, `tick` is total and a no-op: the nested
loops visit no cell at all (`rowMajorPairs` is empty), no error is signalled,
and the (empty) cell array — the whole universe — is returned unchanged. -/
theorem claim8_tick_degenerate (u : Universe) (h : u.width = 0 ∨ u.height = 0) :
    tick u = some u ∧ rowMajorPairs u.height u.width = [] := by
  have hnil : rowMajorPairs u.height u.width = [] := rowMajorPairs_nil (Or.symm h)
  constructor
  · unfold tick
    rw [hnil]
    rfl
  · exact hnil

theorem claim8_tick_degenerate_witness :
    tick (⟨0, 3, []⟩ : Universe) = some (⟨0, 3, []⟩ : Universe) :=
  (claim8_tick_degenerate ⟨0, 3, []⟩ (Or.inl rfl)).1

/-- C10: `tick`, `set_cells`, `toggle_cell`, `add_pattern`, and `set_preset`
leave both dimensions unchanged; `set_width` changes only the width and
`set_height` changes only the height. -/
theorem claim10_frame (u u1 u2 u3 u4 : Universe) (cs : List (Nat × Nat))
    (r c pr pc : Nat) (pat : Pattern) (p w h : Nat)
    (h1 : tick u = some u1) (h2 : set_cells u cs = some u2)
    (h3 : toggle_cell u r c = some u3) (h4 : add_pattern u pr pc pat = some u4) :
    (u1.width = u.width ∧ u1.height = u.height) ∧
    (u2.width = u.width ∧ u2.height = u.height) ∧
    (u3.width = u.width ∧ u3.height = u.height) ∧
    (u4.width = u.width ∧ u4.height = u.height) ∧
    ((set_preset u p).width = u.width ∧ (set_preset u p).height = u.height) ∧
    ((set_width u w).width = w ∧ (set_width u w).height = u.height) ∧
    ((set_height u h).width = u.width ∧ (set_height u h).height = h) := by
  refine ⟨?_, ?_, ?_, ?_, ⟨rfl, rfl⟩, ⟨rfl, rfl⟩, ⟨rfl, rfl⟩⟩
  · unfold tick at h1
    rw [Option.map_eq_some'] at h1
    obtain ⟨x, -, hh⟩ := h1
    rw [← hh]
    exact ⟨rfl, rfl⟩
  · unfold set_cells at h2
    rw [Option.map_eq_some'] at h2
    obtain ⟨x, -, hh⟩ := h2
    rw [← hh]
    exact ⟨rfl, rfl⟩
  · unfold toggle_cell at h3
    rw [Option.map_eq_some'] at h3
    obtain ⟨x, -, hh⟩ := h3
    rw [← hh]
    exact ⟨rfl, rfl⟩
  · unfold add_pattern at h4
    split at h4
    · exact absurd h4 (by simp)
    · rw [Option.map_eq_some'] at h4
      obtain ⟨x, -, hh⟩ := h4
      rw [← hh]
      exact ⟨rfl, rfl⟩

theorem claim10_frame_witness :
    deadTwo.width = deadTwo.width ∧ deadTwo.height = deadTwo.height :=
  (claim10_frame deadTwo deadTwo oneAliveTwo ⟨2, 2, [false, true, false, false]⟩
    ⟨2, 2, [false, true, true, true]⟩ [(0, 0)] 0 1 0 0 Pattern.Glider 5 7 9
    (by decide) (by decide) (by decide) (by decide)).1

/-- C6: `set_width w` (resp. `set_height h`) yields a cell array of exactly the
new total size with every cell Dead, whatever the prior contents were — the
result does not depend on the old cell array at all (so in particular no old
cell is read), including when a dimension shrinks. -/
theorem claim6_resize (u : Universe) (w h : Nat)
    (hbw : w * u.height < U32) (hbh : u.width * h < U32) :
    (set_width u w).cells = List.replicate (w * u.height) false ∧
    (set_width u w).cells.length = w * u.height ∧
    (set_height u h).cells = List.replicate (u.width * h) false ∧
    (set_height u h).cells.length = u.width * h ∧
    (∀ v : Universe, v.height = u.height → (set_width v w).cells = (set_width u w).cells) ∧
    (∀ v : Universe, v.width = u.width → (set_height v h).cells = (set_height u h).cells) := by
  refine ⟨?_, ?_, ?_, ?_, ?_, ?_⟩
  · show List.replicate ((w * u.height) % U32) false = _
    rw [Nat.mod_eq_of_lt hbw]
  · show (List.replicate ((w * u.height) % U32) false).length = _
    rw [List.length_replicate, Nat.mod_eq_of_lt hbw]
  · show List.replicate ((u.width * h) % U32) false = _
    rw [Nat.mod_eq_of_lt hbh]
  · show (List.replicate ((u.width * h) % U32) false).length = _
    rw [List.length_replicate, Nat.mod_eq_of_lt hbh]
  · intro v hv
    show List.replicate ((w * v.height) % U32) false = List.replicate ((w * u.height) % U32) false
    rw [hv]
  · intro v hv
    show List.replicate ((v.width * h) % U32) false = List.replicate ((u.width * h) % U32) false
    rw [hv]

theorem claim6_resize_witness :
    (set_width oneAliveTwo 3).cells = List.replicate (3 * oneAliveTwo.height) false :=
  (claim6_resize oneAliveTwo 3 5 (by decide) (by decide)).1

/-- C7: `set_preset 0` replaces the whole cell array (same total size) so that
a cell is Alive iff its linear index is divisible by 3, by 8, or by 7; every
other preset code replaces the cell array with an all-Dead grid of the same
size. -/
theorem claim7_preset (u : Universe) (hb : u.width * u.height < U32) :
    (set_preset u 0).cells.length = u.width * u.height ∧
    (∀ i < u.width * u.height,
      ((set_preset u 0).cells.getD i false = true ↔ (3 ∣ i ∨ 8 ∣ i ∨ 7 ∣ i))) ∧
    (∀ p, p ≠ 0 → (set_preset u p).cells = List.replicate (u.width * u.height) false) := by
  have hsz : (u.width * u.height) % U32 = u.width * u.height := Nat.mod_eq_of_lt hb
  refine ⟨?_, ?_, ?_⟩
  · show ((List.range ((u.width * u.height) % U32)).map _).length = _
    rw [List.length_map, List.length_range, hsz]
  · intro i hi
    show ((List.range ((u.width * u.height) % U32)).map (fun i =>
        decide (i % 3 = 0) || decide (i % 8 = 0) || decide (i % 7 = 0))).getD i false
      = true ↔ _
    rw [hsz, getD_range_map _ _ hi]
    simp [Nat.dvd_iff_mod_eq_zero, or_assoc]
  · intro p hp
    cases p with
    | zero => exact absurd rfl hp
    | succ p =>
      show List.replicate ((u.width * u.height) % U32) false = _
      rw [hsz]

theorem claim7_preset_witness :
    (set_preset deadTwo 0).cells.length = deadTwo.width * deadTwo.height :=
  (claim7_preset deadTwo (by decide)).1

/-- C4 counterexample: on the 2×2 all-dead grid, the `set_cells` call with the
out-of-range coordinate `(0, 2)` (column ≥ width) does not fail fast: it
succeeds and silently sets the *different* in-range cell `(1, 0)` (linear
index `0*2+2 = 2`), mutating the universe. -/
theorem claim4_counterexample :
    set_cells deadTwo [(0, 2)] = some (⟨2, 2, [false, false, true, false]⟩ : Universe) ∧
    (⟨2, 2, [false, false, true, false]⟩ : Universe) ≠ deadTwo := by
  exact ⟨by decide, by decide⟩

/-- C4 (amended): out-of-range coordinates are not rejected. `set_cells` and
`toggle_cell` use the raw linear index `(row*width+column) mod 2^32`: when it
is below the cell-array length the call succeeds, silently writing that
(possibly different) in-range cell; only when it reaches the length does the
bitset bounds assertion abort the call. `add_pattern` reduces its anchor
modulo the dimensions, so on a well-formed grid with positive dimensions it
never signals a bounds violation. -/
theorem claim4_amended (u : Universe) (row col : Nat) (pat : Pattern) :
    (get_index u row col < u.cells.length →
      set_cells u [(row, col)] =
        some { u with cells := u.cells.set (get_index u row col) true } ∧
      toggle_cell u row col = some ⟨u.width, u.height,
        u.cells.set (get_index u row col) (!(bitGet u.cells (get_index u row col)))⟩) ∧
    (u.cells.length ≤ get_index u row col →
      set_cells u [(row, col)] = none ∧ toggle_cell u row col = none) ∧
    (univInv u → u.width * u.height < U32 → 0 < u.width → 0 < u.height →
      ∃ u', add_pattern u row col pat = some u') := by
  refine ⟨?_, ?_, ?_⟩
  · intro hlt
    constructor
    · show (bitSet u.cells (get_index u row col) true).map _ = _
      rw [bitSet, if_pos hlt, Option.map_some']
    · show (bitToggle u.cells (get_index u row col)).map _ = _
      rw [bitToggle, if_pos hlt, Option.map_some']
  · intro hge
    constructor
    · show (bitSet u.cells (get_index u row col) true).map _ = _
      rw [bitSet, if_neg (by omega), Option.map_none']
    · show (bitToggle u.cells (get_index u row col)).map _ = _
      rw [bitToggle, if_neg (by omega), Option.map_none']
  · intro hinv hb hW hH
    unfold add_pattern
    rw [if_neg (by rintro (h | h) <;> omega)]
    have hlt : ∀ q ∈ (patternDeltas u pat).map (fun d =>
        (get_index u (((row + d.1) % U32) % u.height) (((col + d.2) % U32) % u.width),
         true)), q.1 < u.cells.length := by
      intro q hq
      rw [List.mem_map] at hq
      obtain ⟨d, -, rfl⟩ := hq
      have hr : ((row + d.1) % U32) % u.height < u.height := Nat.mod_lt _ hH
      have hc : ((col + d.2) % U32) % u.width < u.width := Nat.mod_lt _ hW
      rw [get_index_eq hb hr hc, hinv]
      exact index_lt hr hc
    obtain ⟨out, hout⟩ := writeFold_isSome _ u.cells hlt
    exact ⟨{ u with cells := out }, by rw [hout, Option.map_some']⟩

theorem claim4_amended_witness :
    get_index deadTwo 0 2 < deadTwo.cells.length ∧
    set_cells deadTwo [(0, 2)] =
      some { deadTwo with cells := deadTwo.cells.set (get_index deadTwo 0 2) true } :=
  ⟨by decide, ((claim4_amended deadTwo 0 2 Pattern.Glider).1 (by decide)).1⟩

/-- C5 (code behaviour at the failing input): `render` emits one glyph per
packed 32-bit *block* of the bitset, `width` blocks per line. On the 2×2 grid
with a single live cell it produces the single-line text `"◼\n"` — not the
per-cell, one-line-per-row text `"◼◻\n◻◻\n"` that the claim requires. -/
theorem claim5_render_blocks :
    render oneAliveTwo = some "◼\n" ∧ ("◼\n" : String) ≠ "◼◻\n◻◻\n" := by
  exact ⟨by decide, by decide⟩

/-- C9: the representation invariant `cells.length = width * height` holds for
`Universe::new` and is preserved by every mutating operation — `tick` (which
moreover always succeeds, i.e. never touches an index outside the array),
`set_cells`, `toggle_cell`, `add_pattern` (whenever they complete),
`set_preset`, `set_width` and `set_height`. -/
theorem claim9_invariant (u u2 u3 u4 : Universe) (cs : List (Nat × Nat)) (r c pr pc : Nat)
    (pat : Pattern) (p w h : Nat)
    (hinv : univInv u) (hb : u.width * u.height < U32)
    (hbw : w * u.height < U32) (hbh : u.width * h < U32)
    (h2 : set_cells u cs = some u2) (h3 : toggle_cell u r c = some u3)
    (h4 : add_pattern u pr pc pat = some u4) :
    univInv Universe.new ∧
    (∃ u1, tick u = some u1 ∧ univInv u1) ∧
    univInv u2 ∧ univInv u3 ∧ univInv u4 ∧
    univInv (set_preset u p) ∧ univInv (set_width u w) ∧ univInv (set_height u h) := by
  refine ⟨?_, ?_, ?_, ?_, ?_, ?_, ?_, ?_⟩
  · unfold univInv Universe.new
    simp only [List.length_map, List.length_range]
    rw [Nat.mod_eq_of_lt (by norm_num [U32])]
  · refine ⟨tickSpec u, tick_eq_tickSpec u hinv hb, ?_⟩
    show ((List.range u.cells.length).map _).length = u.width * u.height
    rw [List.length_map, List.length_range, hinv]
  · unfold set_cells at h2
    rw [Option.map_eq_some'] at h2
    obtain ⟨out, hout, hh⟩ := h2
    rw [← hh]
    show out.length = u.width * u.height
    rw [writeFold_length _ _ _ hout, hinv]
  · unfold toggle_cell at h3
    rw [Option.map_eq_some'] at h3
    obtain ⟨out, hout, hh⟩ := h3
    obtain ⟨hlt, hset⟩ := bitToggle_eq_some hout
    rw [← hh]
    show out.length = u.width * u.height
    rw [hset, List.length_set, hinv]
  · unfold add_pattern at h4
    split at h4
    · exact absurd h4 (by simp)
    · rw [Option.map_eq_some'] at h4
      obtain ⟨out, hout, hh⟩ := h4
      rw [← hh]
      show out.length = u.width * u.height
      rw [writeFold_length _ _ _ hout, hinv]
  · cases p with
    | zero =>
      show ((List.range ((u.width * u.height) % U32)).map _).length = u.width * u.height
      rw [List.length_map, List.length_range, Nat.mod_eq_of_lt hb]
    | succ p =>
      show (List.replicate ((u.width * u.height) % U32) false).length = u.width * u.height
      rw [List.length_replicate, Nat.mod_eq_of_lt hb]
  · show (List.replicate ((w * u.height) % U32) false).length = w * u.height
    rw [List.length_replicate, Nat.mod_eq_of_lt hbw]
  · show (List.replicate ((u.width * h) % U32) false).length = u.width * h
    rw [List.length_replicate, Nat.mod_eq_of_lt hbh]

theorem claim9_invariant_witness : univInv Universe.new :=
  (claim9_invariant deadTwo oneAliveTwo ⟨2, 2, [false, true, false, false]⟩
    ⟨2, 2, [false, true, true, true]⟩ [(0, 0)] 0 1 0 0 Pattern.Glider 5 7 9
    rfl (by decide) (by decide) (by decide) (by decide) (by decide) (by decide)).1

theorem bool_toNat_pos (b : Bool) : 0 < b.toNat ↔ b = true := by
  cases b <;> simp

theorem singleCell_bit {W H : Nat} (hW0 : 0 < W) (hb : W * H < U32) {ri ci : Nat}
    (hri : ri < H) (hci : ci < W) :
    bitGet (singleCellUniverse W H).cells (get_index (singleCellUniverse W H) ri ci) =
      decide (ri = 0 ∧ ci = 0) := by
  have hidx : get_index (singleCellUniverse W H) ri ci = ri * W + ci :=
    get_index_eq (u := singleCellUniverse W H) hb hri hci
  rw [hidx]
  show ((List.range (W * H)).map (fun i => decide (i = 0))).getD (ri * W + ci) false = _
  rw [getD_range_map _ _ (show ri * W + ci < W * H from
    index_lt (u := singleCellUniverse W H) hri hci)]
  rw [decide_eq_decide]
  constructor
  · intro h
    have h2 : ci = 0 := by omega
    have h1 : ri * W = 0 := by omega
    rcases Nat.mul_eq_zero.mp h1 with h | h
    · exact ⟨h, h2⟩
    · omega
  · rintro ⟨rfl, rfl⟩
    simp

theorem singleCell_lnc_pos {W H r c : Nat} (hW : 2 ≤ W) (hH : 2 ≤ H) (hb : W * H < U32)
    (hr : r < H) (hc : c < W) :
    0 < live_neighbor_count (singleCellUniverse W H) r c ↔
      ((r, c) = (H - 1, W - 1) ∨ (r, c) = (H - 1, 0) ∨ (r, c) = (H - 1, 1) ∨
       (r, c) = (0, W - 1) ∨ (r, c) = (0, 1) ∨ (r, c) = (1, W - 1) ∨
       (r, c) = (1, 0) ∨ (r, c) = (1, 1)) := by
  have hW0 : 0 < W := by omega
  have hH0 : 0 < H := by omega
  have hWU : W < U32 := lt_of_le_of_lt (Nat.le_mul_of_pos_right W hH0) hb
  have hHU : H < U32 := lt_of_le_of_lt (Nat.le_mul_of_pos_left H hW0) hb
  have hN : northOf (singleCellUniverse W H) r < H := northOf_lt hH0 (le_of_lt hHU) hr
  have hS : southOf (singleCellUniverse W H) r < H := southOf_lt hH0 hHU hr
  have hWc : westOf (singleCellUniverse W H) c < W := westOf_lt hW0 (le_of_lt hWU) hc
  have hE : eastOf (singleCellUniverse W H) c < W := eastOf_lt hW0 hWU hc
  unfold live_neighbor_count
  rw [singleCell_bit hW0 hb hN hWc, singleCell_bit hW0 hb hN hE,
    singleCell_bit hW0 hb hN hc, singleCell_bit hW0 hb hr hWc,
    singleCell_bit hW0 hb hr hE, singleCell_bit hW0 hb hS hc,
    singleCell_bit hW0 hb hS hWc, singleCell_bit hW0 hb hS hE]
  simp only [add_pos_iff, bool_toNat_pos, decide_eq_true_eq, Prod.mk.injEq]
  rw [northOf_eq (u := singleCellUniverse W H) hH0 (le_of_lt hHU) r,
    southOf_eq (u := singleCellUniverse W H) hH0 hHU hr,
    westOf_eq (u := singleCellUniverse W H) hW0 (le_of_lt hWU) c,
    eastOf_eq (u := singleCellUniverse W H) hW0 hWU hc,
    show (singleCellUniverse W H).height = H from rfl,
    show (singleCellUniverse W H).width = W from rfl]
  split_ifs <;>
      (try simp only [eq_self_iff_true, false_and, and_false, or_false, false_or,
        true_and, and_true, or_true, true_or, true_iff, iff_true, false_iff,
        iff_false, not_or]) <;>
    omega

/-- C3: neighbor lookup is toroidal. For every in-range cell,
`live_neighbor_count` equals the number of live cells over the spec's eight
wraparound neighbor coordinates (`specNeighbors`: row above is `height-1` when
`row = 0` else `row-1`, row below is `0` when `row = height-1` else `row+1`,
analogously for west/east with `width`); and on a grid whose only live cell is
`(0,0)`, the cells with a positive neighbor count are exactly the eight cells
`(H-1,W-1), (H-1,0), (H-1,1), (0,W-1), (0,1), (1,W-1), (1,0), (1,1)`. -/
theorem claim3_toroidal (u : Universe) (r c : Nat) (hW : 2 ≤ u.width)
    (hH : 2 ≤ u.height) (hb : u.width * u.height < U32)
    (hr : r < u.height) (hc : c < u.width) :
    live_neighbor_count u r c =
      ((specNeighbors u.width u.height r c).map (fun q => (getCell u q.1 q.2).toNat)).sum ∧
    (0 < live_neighbor_count (singleCellUniverse u.width u.height) r c ↔
      ((r, c) = (u.height - 1, u.width - 1) ∨ (r, c) = (u.height - 1, 0) ∨
       (r, c) = (u.height - 1, 1) ∨ (r, c) = (0, u.width - 1) ∨ (r, c) = (0, 1) ∨
       (r, c) = (1, u.width - 1) ∨ (r, c) = (1, 0) ∨ (r, c) = (1, 1))) := by
  have hW0 : 0 < u.width := by omega
  have hH0 : 0 < u.height := by omega
  have hWU : u.width < U32 := lt_of_le_of_lt (Nat.le_mul_of_pos_right u.width hH0) hb
  have hHU : u.height < U32 := lt_of_le_of_lt (Nat.le_mul_of_pos_left u.height hW0) hb
  constructor
  · unfold live_neighbor_count specNeighbors getCell
    rw [northOf_eq (u := u) hH0 (le_of_lt hHU) r, southOf_eq (u := u) hH0 hHU hr,
      westOf_eq (u := u) hW0 (le_of_lt hWU) c, eastOf_eq (u := u) hW0 hWU hc]
    simp only [List.map_cons, List.map_nil, List.sum_cons, List.sum_nil]
    omega
  · exact singleCell_lnc_pos hW hH hb hr hc

theorem claim3_toroidal_witness :
    0 < live_neighbor_count
        (singleCellUniverse (singleCellUniverse 4 3).width (singleCellUniverse 4 3).height)
        1 0 ↔
      (((1 : Nat), (0 : Nat)) = ((singleCellUniverse 4 3).height - 1, (singleCellUniverse 4 3).width - 1) ∨
       ((1 : Nat), (0 : Nat)) = ((singleCellUniverse 4 3).height - 1, 0) ∨
       ((1 : Nat), (0 : Nat)) = ((singleCellUniverse 4 3).height - 1, 1) ∨
       ((1 : Nat), (0 : Nat)) = (0, (singleCellUniverse 4 3).width - 1) ∨
       ((1 : Nat), (0 : Nat)) = (0, 1) ∨
       ((1 : Nat), (0 : Nat)) = (1, (singleCellUniverse 4 3).width - 1) ∨
       ((1 : Nat), (0 : Nat)) = (1, 0) ∨ ((1 : Nat), (0 : Nat)) = (1, 1)) :=
  (claim3_toroidal (singleCellUniverse 4 3) 1 0 (by decide) (by decide) (by decide)
    (by decide) (by decide)).2
